import Mathlib

/-!
# quotescrapper: the crawl pipeline of `main.go`

A shallow embedding of `gatherThemes`, `gatherQuotesFromCategory` and
`gatherQuotes`, together with the parts of `golang.org/x/net/html` and
`github.com/yhat/scrape` they call.

* An `*html.Node` is a tree `Node`; `FirstChild`/`NextSibling` chains are the
  list `children`, and the `Parent` link of a node reached by a search is kept
  next to it in a `Ref`.
* `http.Get` is an oracle: the outcome of the `k`-th GET issued by one fetch.
* Loops that may run forever take a bound on their iterations and report
  `running` when the bound is reached.
* The order in which page goroutines deliver on the channel is a parameter.
* `scrape.Attr`, `scrape.ByClass`, `scrape.FindAll` and `scrape.Text` follow the
  library's `scrape.go`. `FindAll` is the search that returns a matching node
  without looking below it (`FindAllNested` is the one that goes on).
-/

namespace QuoteScrapper

/-! ## Data model (`main.go` 17-31) -/

/-- The struct `quote`. -/
structure quote where
  Quote : String
  Author : String
  Book : String
  deriving DecidableEq, Repr

/-- The struct `category`. -/
structure category where
  Name : String
  Source : String
  Quotes : List quote
  QuotesNumber : Int
  Pages : Int
  deriving DecidableEq, Repr

/-! ## `golang.org/x/net/html` -/

/-- The type `html.NodeType`. -/
inductive NodeType where
  | ErrorNode
  | TextNode
  | DocumentNode
  | ElementNode
  | CommentNode
  | DoctypeNode
  deriving DecidableEq, Repr

/-- The type `atom.Atom`, with the two atoms the program tests for; `none` is
the zero atom of text nodes, documents and unknown tags. -/
inductive Atom where
  | none
  | A
  | Span
  | other (code : Nat)
  deriving DecidableEq, Repr

/-- The struct `html.Attribute` (the namespace is never read). -/
structure Attribute where
  Key : String
  Val : String
  deriving DecidableEq, Repr

/-- The struct `html.Node`: `FirstChild` and its `NextSibling` chain are
`children`. -/
inductive Node where
  | mk (type : NodeType) (dataAtom : Atom) (data : String) (attr : List Attribute)
      (children : List Node)

namespace Node

/-- Field `Type`. -/
def type : Node → NodeType
  | mk t _ _ _ _ => t

/-- Field `DataAtom`. -/
def DataAtom : Node → Atom
  | mk _ a _ _ _ => a

/-- Field `Data`. -/
def Data : Node → String
  | mk _ _ d _ _ => d

/-- Field `Attr`. -/
def Attr : Node → List Attribute
  | mk _ _ _ as _ => as

/-- The nodes visited by `for c := n.FirstChild; c != nil; c = c.NextSibling`. -/
def children : Node → List Node
  | mk _ _ _ _ cs => cs

end Node

/-- A pointer `*html.Node` as a search returns it: the node and its `Parent`
(absent at the root). -/
structure Ref where
  Parent : Option Node
  node : Node

/-! ## `github.com/yhat/scrape` -/

/-- The function `scrape.Attr`: the value of the first attribute with the key, else `""`. -/
def scrapeAttr (n : Node) (key : String) : String :=
  match n.Attr.find? (fun a => a.Key == key) with
  | some a => a.Val
  | none => ""

/-- The predicate `unicode.IsSpace`. -/
def isSpace (c : Char) : Bool :=
  let n := c.toNat
  (9 ≤ n && n ≤ 13) || n == 32 || n == 0x85 || n == 0xA0 || n == 0x1680 ||
  (0x2000 ≤ n && n ≤ 0x200A) || n == 0x2028 || n == 0x2029 || n == 0x202F ||
  n == 0x205F || n == 0x3000

/-- The loop of `strings.Fields` over the characters: `cur` is the field being
read, in reverse. -/
def fieldsAux : List Char → List Char → List String
  | [], cur => if cur.isEmpty then [] else [String.mk cur.reverse]
  | c :: cs, cur =>
    if isSpace c then
      (if cur.isEmpty then fieldsAux cs [] else String.mk cur.reverse :: fieldsAux cs [])
    else fieldsAux cs (c :: cur)

/-- The function `strings.Fields`. -/
def fields (s : String) : List String :=
  fieldsAux s.data []

/-- The function `strings.TrimSpace`. -/
def trimSpace (s : String) : String :=
  String.mk ((s.data.dropWhile isSpace).reverse.dropWhile isSpace).reverse

/-- The matcher `scrape.ByClass`: one of the space-separated classes is `cls`. -/
def ByClass (cls : String) (n : Node) : Bool :=
  (fields (scrapeAttr n "class")).contains cls

mutual
/-- The function `scrape.FindAll`: a matching node is returned and not searched
further; otherwise the children are searched in order. -/
def FindAllFrom (matcher : Node → Bool) (parent : Option Node) : Node → List Ref
  | .mk t a d as cs =>
    if matcher (.mk t a d as cs) then [⟨parent, .mk t a d as cs⟩]
    else FindAllChildren matcher (.mk t a d as cs) cs
/-- The loop of `scrape.FindAll` over the children of `p`. -/
def FindAllChildren (matcher : Node → Bool) (p : Node) : List Node → List Ref
  | [] => []
  | c :: cs => FindAllFrom matcher (some p) c ++ FindAllChildren matcher p cs
end

/-- The function `scrape.FindAll` called on a root. -/
def FindAll (root : Node) (matcher : Node → Bool) : List Ref :=
  FindAllFrom matcher none root

/-- The function `scrape.Text`: the data of the text nodes below `n`, each
trimmed, the empty ones dropped, joined by one space. -/
def Text (n : Node) : String :=
  String.intercalate " "
    (((FindAll n (fun m => m.type == NodeType.TextNode)).map
      (fun r => trimSpace r.node.Data)).filter (fun s => s != ""))

/-! ## `net/http` -/

/-- An `*http.Response`, seen through `html.Parse(resp.Body)`: the root of the
parsed tree, or nothing when the parse returns an error. -/
structure Response where
  parse : Option Node

/-- The network: `net task url k` is the outcome of GET number `k` (from 0)
that goroutine `task` issues for `url`; `none` is `err != nil`. Goroutine 0
runs `gatherQuotesFromCategory`, goroutine `i + 1` runs `gatherQuotes` on the
`i`-th page link. -/
abbrev Net := Nat → String → Nat → Option Response

/-! ## The retrying fetch (`main.go` 65-80 and 131-147) -/

/-- How the fetch stands: it got a response, it gave up (`!ok`), or its loop is
still turning when the bound on iterations is reached. `gets` and `sleeps`
count the calls of `http.Get` and `time.Sleep` made so far. -/
inductive FetchResult where
  | ok (resp : Response) (gets sleeps : Nat)
  | failed (gets sleeps : Nat)
  | running (gets sleeps : Nat)

/-- The loop `for retries < 5 { time.Sleep(..); if resp, err = http.Get(..);
err == nil { ok = true; break } }`. The body never assigns `retries`, so it is
passed on unchanged. -/
def retryLoop (get : Nat → Option Response) (retries : Nat) :
    Nat → Nat → Nat → FetchResult
  | 0, gets, sleeps => if retries < 5 then .running gets sleeps else .failed gets sleeps
  | fuel + 1, gets, sleeps =>
    if retries < 5 then
      match get gets with
      | some resp => .ok resp (gets + 1) (sleeps + 1)
      | none => retryLoop get retries fuel (gets + 1) (sleeps + 1)
    else .failed gets sleeps

/-- The fetch: `retries := 0`, one GET, and on error the retry loop. -/
def fetch (get : Nat → Option Response) (fuel : Nat) : FetchResult :=
  match get 0 with
  | some resp => .ok resp 1 0
  | none => retryLoop get 0 fuel 1 0

/-! ## Extraction (`main.go` 86-109 and 154-167) -/

/-- The `switch scrape.Attr(c, "class")` on one child `c` of a quotation node. -/
def setField (q : quote) (c : Node) : quote :=
  if scrapeAttr c "class" = "quote" then { q with Quote := Text c }
  else if scrapeAttr c "class" = "author" then { q with Author := Text c }
  else if scrapeAttr c "class" = "book" then { q with Book := Text c }
  else q

/-- The record filled for one quotation node: zero value, then the loop over
its children. -/
def quoteOf (n : Node) : quote :=
  n.children.foldl setField ⟨"", "", ""⟩

/-- Lines 86-99 (and 154-167): one record per node found with class
`quotation`. -/
def extractQuotes (root : Node) : List quote :=
  (FindAll root (ByClass "quotation")).map (fun r => quoteOf r.node)

/-- The test of line 105 on a child of a navigation node. -/
def isPageLink (c : Node) : Bool :=
  c.DataAtom == Atom.A && scrapeAttr c "class" != "nextpostslink"

/-- Lines 102-109: `next`, grown by `append` in the two nested loops. -/
def nextLinks (as : List Ref) : List String :=
  as.foldl (fun next n =>
    n.node.children.foldl (fun next c =>
      if isPageLink c then next ++ [scrapeAttr c "href"] else next) next) []

/-- The additional page URLs of a page: `next` when a navigation node is found,
nothing otherwise (line 101). -/
def additionalURLs (root : Node) : List String :=
  if (FindAll root (ByClass "wp-pagenavi")).length > 0 then
    nextLinks (FindAll root (ByClass "wp-pagenavi"))
  else []

/-! ## `gatherQuotes` (`main.go` 127-169) -/

/-- The function `gatherQuotes`: what it sends on the channel (`none` is `nil`),
or nothing while its fetch is still running. -/
def gatherQuotes (get : Nat → Option Response) (fuel : Nat) : Option (Option (List quote)) :=
  match fetch get fuel with
  | .running _ _ => none
  | .failed _ _ => some none
  | .ok resp _ _ =>
    match resp.parse with
    | none => some none
    | some root => some (some (extractQuotes root))

/-! ## `gatherQuotesFromCategory` (`main.go` 57-125) -/

/-- The loop `for done != len(next) { q := <-c; ..; done++ }` over the values
the channel delivers, in order; it blocks for good (`none`) when the channel
stays empty. -/
def receive (n : Nat) : List (Option (List quote)) → Nat → List quote → Option (List quote)
  | [], done, Quotes => if done = n then some Quotes else none
  | q :: c, done, Quotes =>
    if done = n then some Quotes
    else receive n c (done + 1) (match q with
      | some q => Quotes ++ q
      | none => Quotes)

/-- What the channel delivers: the page goroutines in their order of arrival,
each with the value it sends, if it sends one. -/
def channel (net : Net) (next : List String) (order : List Nat) (fuel : Nat) :
    List (Option (List quote)) :=
  order.filterMap (fun i =>
    match next.get? i with
    | some src => gatherQuotes (net (i + 1) src) fuel
    | none => none)

/-- A return of `gatherQuotesFromCategory`: the category, the page goroutines
started, and the calls of `wg.Done`. -/
structure Return where
  cat : category
  dispatched : List String
  wgDone : Nat
  deriving DecidableEq, Repr

/-- The body of `gatherQuotesFromCategory`, up to its `return`s. -/
def body (cat : category) (net : Net) (order : List Nat) (fuel : Nat) :
    Option (category × List String) :=
  match fetch (net 0 cat.Source) fuel with
  | .running _ _ => none
  | .failed _ _ => some (cat, [])
  | .ok resp _ _ =>
    match resp.parse with
    | none => some (cat, [])
    | some root =>
      let cat := { cat with Quotes := extractQuotes root }
      let as := FindAll root (ByClass "wp-pagenavi")
      if as.length > 0 then
        let next := nextLinks as
        let cat := { cat with Pages := (next.length : Int) + 1 }
        match receive next.length (channel net next order fuel) 0 cat.Quotes with
        | none => none
        | some qs =>
          some ({ cat with Quotes := qs, QuotesNumber := (qs.length : Int) }, next)
      else
        some ({ cat with QuotesNumber := (cat.Quotes.length : Int) }, [])

/-- The function `gatherQuotesFromCategory`: the body, then the deferred
function with its `wg.Done()`. Nothing is returned while a fetch is still
running or the receive loop is blocked. -/
def gatherQuotesFromCategory (cat : category) (net : Net) (order : List Nat) (fuel : Nat) :
    Option Return :=
  match body cat net order fuel with
  | none => none
  | some (cat, dispatched) => some ⟨cat, dispatched, 1⟩

/-! ## `gatherThemes` (`main.go` 33-55) -/

/-- The ways `gatherThemes` does not return categories: the error of `http.Get`,
the error of `html.Parse`, and the nil dereference of `n.Parent` at a root. -/
inductive Failure where
  | get
  | parse
  | nilParent
  deriving DecidableEq, Repr

/-- The `matcher` of `gatherThemes`. -/
def matcher (n : Node) : Bool :=
  n.DataAtom == Atom.Span && scrapeAttr n "class" == "name"

/-- The loop of lines 51-53. -/
def themesOf : List Ref → Except Failure (List category)
  | [] => .ok []
  | n :: as =>
    match n.Parent with
    | none => .error .nilParent
    | some p =>
      match themesOf as with
      | .error e => .error e
      | .ok r => .ok (⟨Text n.node, scrapeAttr p "href", [], 0, 0⟩ :: r)

/-- The function `gatherThemes`, given the outcome of its one `http.Get`. -/
def gatherThemes (get : Option Response) : Except Failure (List category) :=
  match get with
  | none => .error .get
  | some resp =>
    match resp.parse with
    | none => .error .parse
    | some root => themesOf (FindAll root matcher)

/-! ## Document order, for stating what the searches return -/

/-- A node of a tree with its ancestors, the nearest (its parent) first. -/
structure Occurrence where
  ancestors : List Node
  node : Node

mutual
/-- The nodes of the tree below and including a node, in pre-order. -/
def occurrencesFrom (anc : List Node) : Node → List Occurrence
  | .mk t a d as cs => ⟨anc, .mk t a d as cs⟩ :: occurrencesChildren (.mk t a d as cs :: anc) cs
/-- The nodes of the trees of a list of siblings, in pre-order. -/
def occurrencesChildren (anc : List Node) : List Node → List Occurrence
  | [] => []
  | c :: cs => occurrencesFrom anc c ++ occurrencesChildren anc cs
end

/-- Every node of a document, in document order. -/
def documentOrder (root : Node) : List Occurrence :=
  occurrencesFrom [] root

/-- Every node that satisfies `m`, in document order. -/
def nodesWhere (m : Node → Bool) (root : Node) : List Occurrence :=
  (documentOrder root).filter (fun o => m o.node)

/-- The nodes that satisfy `m` and lie inside no other node that does, in
document order. -/
def outermost (m : Node → Bool) (root : Node) : List Occurrence :=
  (documentOrder root).filter (fun o => m o.node && o.ancestors.all (fun a => !m a))

/-- The parent of an occurrence as a `Ref` holds it. -/
def Occurrence.ref (o : Occurrence) : Ref :=
  ⟨o.ancestors.head?, o.node⟩

/-- The text of the last direct child of `n` whose class attribute is `role`,
or `""` when there is none. -/
def roleText (n : Node) (role : String) : String :=
  match (n.children.filter (fun c => scrapeAttr c "class" == role)).getLast? with
  | some c => Text c
  | none => ""

/-- The quote record of a quotation node, field by field. -/
def quoteRecord (n : Node) : quote :=
  ⟨roleText n "quote", roleText n "author", roleText n "book"⟩

/-- The page links of one navigation node: its direct children that pass the
test of line 105, by their `href`. -/
def pageLinks (n : Node) : List String :=
  (n.children.filter isPageLink).map (fun c => scrapeAttr c "href")

/-- Every page link that is a direct child of a node of class `wp-pagenavi`,
in document order. -/
def linksInDocumentOrder (root : Node) : List String :=
  ((documentOrder root).filter (fun o => isPageLink o.node &&
    (match o.ancestors.head? with
     | some p => ByClass "wp-pagenavi" p
     | none => false))).map (fun o => scrapeAttr o.node "href")

/-- The `href` of the nearest link node among the ancestors. -/
def enclosingLinkHref (anc : List Node) : String :=
  match anc.find? (fun a => a.DataAtom == Atom.A) with
  | some a => scrapeAttr a "href"
  | none => ""

/-- The `href` attribute of the parent. -/
def parentHref (anc : List Node) : String :=
  match anc.head? with
  | some p => scrapeAttr p "href"
  | none => ""

/-- One quote record for every node of class `quotation`, in document order. -/
def everyQuotation (root : Node) : List quote :=
  (nodesWhere (ByClass "quotation") root).map (fun o => quoteRecord o.node)

/-- One category for every `span` of class `name`, in document order, its
source the `href` of the link that encloses it. -/
def themesByEnclosingLink (root : Node) : List category :=
  (nodesWhere matcher root).map
    (fun o => ⟨Text o.node, enclosingLinkHref o.ancestors, [], 0, 0⟩)

/-- The root `html.Parse` returns: a document node, without atom. -/
def isDocumentRoot (root : Node) : Prop :=
  root.type = NodeType.DocumentNode ∧ root.DataAtom = Atom.none

/-- The quotes that a sequence of channel values carries; a nil carries none. -/
def delivered (chan : List (Option (List quote))) : List quote :=
  chan.flatMap (fun q => q.getD [])

/-- A category as line 52 creates it. -/
def newCategory (Name Source : String) : category :=
  ⟨Name, Source, [], 0, 0⟩

/-! ## Sample documents -/

/-- A text node. -/
def text (s : String) : Node :=
  .mk .TextNode .none s [] []

/-- An element with a class attribute. -/
def elem (a : Atom) (tag cls : String) (cs : List Node) : Node :=
  .mk .ElementNode a tag [⟨"class", cls⟩] cs

/-- A link. -/
def link (cls href : String) (cs : List Node) : Node :=
  .mk .ElementNode .A "a" [⟨"class", cls⟩, ⟨"href", href⟩] cs

/-- A document root. -/
def document (cs : List Node) : Node :=
  .mk .DocumentNode .none "" [] cs

/-- A quotation block. -/
def quotation (q a b : String) : Node :=
  elem (.other 1) "div" "quotation"
    [elem .Span "span" "quote" [text q], elem .Span "span" "author" [text a],
     elem .Span "span" "book" [text b]]

/-- The page `/love/`: two quotation blocks, no navigation. -/
def lovePage : Node :=
  document [quotation "L1" "A1" "B1", quotation "L2" "A2" "B2"]

/-- The page `/life/`: two quotation blocks and a navigation node with one
more page and the next-post link. -/
def lifePage : Node :=
  document [quotation "V1" "A1" "B1", quotation "V2" "A2" "B2",
    elem (.other 1) "div" "wp-pagenavi"
      [elem .Span "span" "current" [text "1"], link "page" "/life/2/" [text "2"],
       link "nextpostslink" "/life/2/" [text "next"]]]

/-- The page `/life/2/`: one quotation block. -/
def lifePage2 : Node :=
  document [quotation "V3" "A3" "B3"]

/-- The index page: two categories. -/
def indexPage : Node :=
  document [link "" "/love/" [elem .Span "span" "name" [text "Love"]],
    link "" "/life/" [elem .Span "span" "name" [text "Life"]]]

/-- An index page whose second name is two levels below its link. -/
def deepIndexPage : Node :=
  document [link "" "/love/" [elem .Span "span" "name" [text "Love"]],
    link "" "/life/" [elem (.other 2) "h2" "" [elem .Span "span" "name" [text "Life"]]]]

/-- A page with a quotation block inside another. -/
def nestedQuotationPage : Node :=
  document [elem (.other 1) "div" "quotation"
    [elem .Span "span" "quote" [text "outer"],
     elem (.other 1) "div" "quotation" [elem .Span "span" "quote" [text "inner"]]]]

/-- A page with a navigation node inside another. -/
def nestedNavigationPage : Node :=
  document [elem (.other 1) "div" "wp-pagenavi"
    [link "page" "/life/2/" [],
     elem (.other 1) "div" "wp-pagenavi" [link "page" "/life/3/" []],
     link "page" "/life/4/" []]]

/-- The return of the crawler on `/life/` when both pages answer. -/
def lifeReturn : Return :=
  ⟨⟨"Life", "/life/", [⟨"V1", "A1", "B1"⟩, ⟨"V2", "A2", "B2"⟩, ⟨"V3", "A3", "B3"⟩], 3, 2⟩,
   ["/life/2/"], 1⟩

/-- The return of the crawler on `/love/` when the page answers. -/
def loveReturn : Return :=
  ⟨⟨"Love", "/love/", [⟨"L1", "A1", "B1"⟩, ⟨"L2", "A2", "B2"⟩], 2, 0⟩, [], 1⟩

/-- The page `/life/3/`: one quotation block. -/
def lifePage3 : Node :=
  document [quotation "V4" "A4" "B4"]

/-- A first page with two more pages. -/
def longPage : Node :=
  document [quotation "V1" "A1" "B1",
    elem (.other 1) "div" "wp-pagenavi"
      [link "page" "/life/2/" [text "2"], link "page" "/life/3/" [text "3"]]]

/-- The return of the crawler on `longPage` when `/life/2/` delivers first. -/
def longReturn : Return :=
  ⟨⟨"Life", "/life/", [⟨"V1", "A1", "B1"⟩, ⟨"V3", "A3", "B3"⟩, ⟨"V4", "A4", "B4"⟩], 3, 3⟩,
   ["/life/2/", "/life/3/"], 1⟩

/-- A response whose body parses to `root`. -/
def page (root : Node) : Option Response :=
  some ⟨some root⟩

/-- A network where every GET fails. -/
def deadNet : Net :=
  fun _ _ _ => none

/-- A network where `/love/` and `/life/` answer at once and every GET of a
further page fails. -/
def brokenPagesNet : Net :=
  fun task src _ =>
    if task = 0 then (if src = "/love/" then page lovePage else page lifePage) else none

/-- A network where every page answers at once. -/
def scenarioNet : Net :=
  fun task src _ =>
    if task = 0 then (if src = "/love/" then page lovePage else page lifePage)
    else page lifePage2

/-- A network where `longPage` and its two further pages answer at once. -/
def longNet : Net :=
  fun task _ _ =>
    if task = 0 then page longPage else if task = 1 then page lifePage2 else page lifePage3

/-- A network where the first six GETs of `/love/` fail and the seventh answers. -/
def lateNet : Net :=
  fun _ _ k => if k < 6 then none else page lovePage

/-- GET outcomes: four failures, then an answer. -/
def fifthTime (k : Nat) : Option Response :=
  if k < 4 then none else page lovePage

/-! ## The retrying fetch: what the loop does -/

theorem retryLoop_all_fail (get : Nat → Option Response) (hget : ∀ k, get k = none) :
    ∀ fuel gets sleeps,
      retryLoop get 0 fuel gets sleeps = .running (gets + fuel) (sleeps + fuel) := by
  intro fuel
  induction fuel with
  | zero => intro gets sleeps; simp [retryLoop]
  | succ n ih =>
    intro gets sleeps
    simp only [retryLoop, hget, Nat.ofNat_pos, if_true]
    rw [ih]
    congr 1 <;> omega

theorem fetch_all_fail (get : Nat → Option Response) (hget : ∀ k, get k = none) (fuel : Nat) :
    fetch get fuel = .running (fuel + 1) fuel := by
  simp only [fetch, hget, retryLoop_all_fail get hget]
  congr 1 <;> omega

theorem retryLoop_first_success (get : Nat → Option Response) (k : Nat) (resp : Response)
    (hk : get k = some resp) :
    ∀ fuel gets sleeps, gets ≤ k → (∀ i, gets ≤ i → i < k → get i = none) → k < gets + fuel →
      retryLoop get 0 fuel gets sleeps = .ok resp (k + 1) (sleeps + (k + 1 - gets)) := by
  intro fuel
  induction fuel with
  | zero => intro gets sleeps h1 _ h3; omega
  | succ n ih =>
    intro gets sleeps h1 h2 h3
    rcases Nat.eq_or_lt_of_le h1 with h | h
    · subst h
      simp only [retryLoop, hk, Nat.ofNat_pos, if_true]
      congr 1; omega
    · simp only [retryLoop, h2 gets (le_refl _) h, Nat.ofNat_pos, if_true]
      rw [ih (gets + 1) (sleeps + 1) h (fun i hi hik => h2 i (by omega) hik) (by omega)]
      congr 1; omega

theorem fetch_first_success (get : Nat → Option Response) (k : Nat) (resp : Response)
    (hfail : ∀ i, i < k → get i = none) (hk : get k = some resp) (fuel : Nat)
    (hfuel : k ≤ fuel) :
    fetch get fuel = .ok resp (k + 1) k := by
  cases k with
  | zero => simp [fetch, hk]
  | succ k =>
    have h0 : get 0 = none := hfail 0 (by omega)
    simp only [fetch, h0]
    rw [retryLoop_first_success get (k + 1) resp hk fuel 1 0 (by omega)
      (fun i _ hi => hfail i hi) (by omega)]
    congr 1; omega

/-- The branch `if !ok` is never reached: the loop condition `retries < 5` is
tested on `retries = 0` every time. -/
theorem fetch_never_failed (get : Nat → Option Response) (fuel gets sleeps : Nat) :
    fetch get fuel ≠ .failed gets sleeps := by
  have h : ∀ fuel g s, retryLoop get 0 fuel g s ≠ .failed gets sleeps := by
    intro fuel
    induction fuel with
    | zero => intro g s; simp [retryLoop]
    | succ n ih =>
      intro g s
      simp only [retryLoop, Nat.ofNat_pos, if_true]
      cases hg : get g with
      | none => exact ih _ _
      | some r => simp
  unfold fetch
  cases h0 : get 0 with
  | none => exact h _ _ _
  | some r => simp

theorem gatherQuotes_all_fail (get : Nat → Option Response) (hget : ∀ k, get k = none)
    (fuel : Nat) : gatherQuotes get fuel = none := by
  simp [gatherQuotes, fetch_all_fail get hget]

/-- C3, at a URL whose GETs all fail: whatever the bound on the iterations, the
fetch has not given up. After `fuel` turns of the loop it has issued `fuel + 1`
GETs, slept `fuel` times, and the loop condition still holds; with `fuel = 6`
that is a seventh GET, and no terminal failure is ever reported. -/
theorem fetch_retries_forever (fuel : Nat) :
    fetch (deadNet 0 "/love/") fuel = .running (fuel + 1) fuel ∧
    fetch (deadNet 0 "/love/") 6 = .running 7 6 ∧
    gatherQuotes (deadNet 1 "/life/2/") fuel = none :=
  ⟨fetch_all_fail _ (fun _ => rfl) fuel, fetch_all_fail _ (fun _ => rfl) 6,
   gatherQuotes_all_fail _ (fun _ => rfl) fuel⟩

/-- C4: when the first `k ≤ 5` GETs fail and GET number `k + 1` answers, the
fetch ends with that response after exactly `k + 1` GETs and `k` sleeps, for
every bound of at least `k` iterations. -/
theorem fetch_returns_first_success (get : Nat → Option Response) (k : Nat) (resp : Response)
    (_hk : k ≤ 5) (hfail : ∀ i, i < k → get i = none) (hok : get k = some resp)
    (fuel : Nat) (hfuel : k ≤ fuel) :
    fetch get fuel = .ok resp (k + 1) k :=
  fetch_first_success get k resp hfail hok fuel hfuel

/-- C4 at four failures and an answer to the fifth GET. -/
theorem fetch_returns_first_success_witness :
    (4 ≤ 5) ∧ (∀ i, i < 4 → fifthTime i = none) ∧ fifthTime 4 = some ⟨some lovePage⟩ ∧
    (4 ≤ 4) ∧ fetch fifthTime 4 = .ok ⟨some lovePage⟩ 5 4 :=
  ⟨by decide, fun i hi => by simp [fifthTime, hi], rfl, by decide,
   fetch_returns_first_success fifthTime 4 ⟨some lovePage⟩ (by decide)
     (fun i hi => by simp [fifthTime, hi]) rfl 4 (by decide)⟩

/-! ## The category crawler: its return paths -/

theorem receive_eq (n : Nat) :
    ∀ (chan : List (Option (List quote))) (done : Nat) (Quotes : List quote), done ≤ n →
      receive n chan done Quotes =
        if n - done ≤ chan.length then some (Quotes ++ delivered (chan.take (n - done)))
        else none := by
  intro chan
  induction chan with
  | nil =>
    intro done Quotes h
    by_cases hd : done = n
    · simp [receive, hd, delivered]
    · have : ¬ (n - done ≤ 0) := by omega
      simp [receive, hd, this]
  | cons q c ih =>
    intro done Quotes h
    by_cases hd : done = n
    · simp [receive, hd, delivered]
    · have h1 : n - done = (n - (done + 1)) + 1 := by omega
      simp only [receive, hd, if_false]
      rw [ih (done + 1) _ (by omega), h1]
      simp only [List.length_cons, Nat.add_le_add_iff_right, List.take_succ_cons]
      cases q with
      | none => simp [delivered]
      | some q => simp [delivered, List.append_assoc]

theorem body_running (cat : category) (net : Net) (order : List Nat) (fuel g s : Nat)
    (hf : fetch (net 0 cat.Source) fuel = .running g s) :
    body cat net order fuel = none := by
  simp [body, hf]

theorem body_parse_error (cat : category) (net : Net) (order : List Nat) (fuel g s : Nat)
    (resp : Response) (hf : fetch (net 0 cat.Source) fuel = .ok resp g s)
    (hp : resp.parse = none) :
    body cat net order fuel = some (cat, []) := by
  simp [body, hf, hp]

theorem body_single_page (cat : category) (net : Net) (order : List Nat) (fuel g s : Nat)
    (resp : Response) (root : Node) (hf : fetch (net 0 cat.Source) fuel = .ok resp g s)
    (hp : resp.parse = some root) (hnav : FindAll root (ByClass "wp-pagenavi") = []) :
    body cat net order fuel =
      some ({ cat with Quotes := extractQuotes root,
                       QuotesNumber := ((extractQuotes root).length : Int) }, []) := by
  simp [body, hf, hp, hnav]

theorem body_paginated (cat : category) (net : Net) (order : List Nat) (fuel g s : Nat)
    (resp : Response) (root : Node) (hf : fetch (net 0 cat.Source) fuel = .ok resp g s)
    (hp : resp.parse = some root) (hnav : FindAll root (ByClass "wp-pagenavi") ≠ []) :
    body cat net order fuel =
      (receive (additionalURLs root).length
          (channel net (additionalURLs root) order fuel) 0 (extractQuotes root)).map
        (fun qs => ({ cat with Quotes := qs, QuotesNumber := (qs.length : Int),
                               Pages := ((additionalURLs root).length : Int) + 1 },
                    additionalURLs root)) := by
  have hlen : (FindAll root (ByClass "wp-pagenavi")).length > 0 :=
    List.length_pos.mpr hnav
  simp only [body, hf, hp, hlen, if_true, additionalURLs]
  cases receive _ _ 0 (extractQuotes root) <;> rfl

theorem additionalURLs_of_no_navigation (root : Node)
    (hnav : FindAll root (ByClass "wp-pagenavi") = []) : additionalURLs root = [] := by
  simp [additionalURLs, hnav]

theorem channel_length_le (net : Net) (next : List String) (order : List Nat) (fuel : Nat)
    (hnd : order.Nodup) : (channel net next order fuel).length ≤ next.length := by
  have h1 : ∀ l : List Nat,
      (channel net next l fuel).length ≤ (l.filter (fun i => decide (i < next.length))).length := by
    intro l
    induction l with
    | nil => simp [channel]
    | cons i l ih =>
      have ih2 : (List.filterMap (fun i =>
          match next.get? i with
          | some src => gatherQuotes (net (i + 1) src) fuel
          | none => none) l).length ≤
          (l.filter (fun i => decide (i < next.length))).length := ih
      by_cases hi : i < next.length
      · simp only [channel, List.filterMap_cons, List.filter_cons, hi, decide_True, if_true,
          List.length_cons]
        split
        · omega
        · simp only [List.length_cons]; omega
      · have hnone : next.get? i = none := by
          simp only [List.get?_eq_getElem?]
          exact List.getElem?_eq_none (by omega)
        simp only [channel, List.filterMap_cons, hnone, List.filter_cons, hi, decide_False]
        exact ih2
  have h2 : (order.filter (fun i => decide (i < next.length))).length ≤
      (List.range next.length).length := by
    apply List.Subperm.length_le
    apply List.subperm_of_subset (hnd.filter _)
    intro i hi
    have := (List.mem_filter.mp hi).2
    simpa using this
  have h3 := h1 order
  simp only [List.length_range] at h2
  omega

theorem delivered_perm {c1 c2 : List (Option (List quote))} (h : c1.Perm c2) :
    (delivered c1).Perm (delivered c2) :=
  List.Perm.flatMap_right _ h

/-- The receive loop on a channel that carries at most `n` values: it ends when
exactly `n` arrive, with everything delivered appended in order. -/
theorem receive_all (n : Nat) (chan : List (Option (List quote))) (Quotes : List quote)
    (hlen : chan.length ≤ n) :
    receive n chan 0 Quotes =
      if chan.length = n then some (Quotes ++ delivered chan) else none := by
  rw [receive_eq n chan 0 Quotes (Nat.zero_le _)]
  by_cases h : chan.length = n
  · subst h
    simp
  · have : ¬ (n ≤ chan.length) := by omega
    simp [h, this]

/-- C1: a category that enters with `QuotesNumber = len(Quotes)` (as every
category of line 52 does) has `QuotesNumber = len(Quotes)` whenever
`gatherQuotesFromCategory` returns, for every network, every arrival order and
every bound. -/
theorem quotesNumber_eq_length (cat : category) (net : Net) (order : List Nat) (fuel : Nat)
    (r : Return) (hentry : cat.QuotesNumber = (cat.Quotes.length : Int))
    (hret : gatherQuotesFromCategory cat net order fuel = some r) :
    r.cat.QuotesNumber = (r.cat.Quotes.length : Int) := by
  unfold gatherQuotesFromCategory at hret
  cases hf : fetch (net 0 cat.Source) fuel with
  | running g s => simp [body_running cat net order fuel g s hf] at hret
  | failed g s => exact absurd hf (fetch_never_failed _ _ _ _)
  | ok resp g s =>
    cases hp : resp.parse with
    | none =>
      rw [body_parse_error cat net order fuel g s resp hf hp] at hret
      simp only [Option.some.injEq] at hret
      rw [← hret]; exact hentry
    | some root =>
      by_cases hnav : FindAll root (ByClass "wp-pagenavi") = []
      · rw [body_single_page cat net order fuel g s resp root hf hp hnav] at hret
        simp only [Option.some.injEq] at hret
        rw [← hret]
      · rw [body_paginated cat net order fuel g s resp root hf hp hnav] at hret
        cases hrecv : receive (additionalURLs root).length
            (channel net (additionalURLs root) order fuel) 0 (extractQuotes root) with
        | none => simp [hrecv] at hret
        | some qs =>
          simp only [hrecv, Option.map_some', Option.some.injEq] at hret
          rw [← hret]

/-- C1 on the category `Life` of the two-page scenario. -/
theorem quotesNumber_eq_length_witness :
    (newCategory "Life" "/life/").QuotesNumber =
      ((newCategory "Life" "/life/").Quotes.length : Int) ∧
    gatherQuotesFromCategory (newCategory "Life" "/life/") scenarioNet [0] 0 = some lifeReturn ∧
    lifeReturn.cat.QuotesNumber = (lifeReturn.cat.Quotes.length : Int) :=
  ⟨by decide, by decide,
   quotesNumber_eq_length (newCategory "Life" "/life/") scenarioNet [0] 0 lifeReturn
     (by decide) (by decide)⟩

/-- Without a navigation node the crawler leaves `Pages` as it found it. -/
theorem pages_unchanged_without_navigation (cat : category) (net : Net) (order : List Nat)
    (fuel g s : Nat) (resp : Response) (root : Node) (r : Return)
    (hf : fetch (net 0 cat.Source) fuel = .ok resp g s) (hp : resp.parse = some root)
    (hnav : FindAll root (ByClass "wp-pagenavi") = [])
    (hret : gatherQuotesFromCategory cat net order fuel = some r) :
    r.cat.Pages = cat.Pages := by
  unfold gatherQuotesFromCategory at hret
  rw [body_single_page cat net order fuel g s resp root hf hp hnav] at hret
  simp only [Option.some.injEq] at hret
  rw [← hret]

/-- With a navigation node, `Pages` is one more than the number of page links,
whatever the page goroutines deliver. -/
theorem pages_with_navigation (cat : category) (net : Net) (order : List Nat)
    (fuel g s : Nat) (resp : Response) (root : Node) (r : Return)
    (hf : fetch (net 0 cat.Source) fuel = .ok resp g s) (hp : resp.parse = some root)
    (hnav : FindAll root (ByClass "wp-pagenavi") ≠ [])
    (hret : gatherQuotesFromCategory cat net order fuel = some r) :
    r.cat.Pages = 1 + ((additionalURLs root).length : Int) ∧
    r.dispatched = additionalURLs root := by
  unfold gatherQuotesFromCategory at hret
  rw [body_paginated cat net order fuel g s resp root hf hp hnav] at hret
  cases hrecv : receive (additionalURLs root).length
      (channel net (additionalURLs root) order fuel) 0 (extractQuotes root) with
  | none => simp [hrecv] at hret
  | some qs =>
    simp only [hrecv, Option.map_some', Option.some.injEq] at hret
    rw [← hret]
    exact ⟨by simp [Int.add_comm], rfl⟩

/-- C2, at the category `Love` of the scenario: page 1 answers with two
quotation blocks and no navigation node, so it has no additional page link, and
the crawler returns with `Pages = 0`, not 1. -/
theorem single_page_category_has_zero_pages :
    additionalURLs lovePage = [] ∧
    gatherQuotesFromCategory (newCategory "Love" "/love/") scenarioNet [] 0 = some loveReturn ∧
    loveReturn.cat.Pages = 0 := by
  decide

/-- C7, at the category `Life` when every GET of `/life/2/` fails: page 1 is
read and one page goroutine is started, but it never sends, so the crawler never
returns, whatever the bound. -/
theorem category_blocks_on_failing_page (fuel : Nat) :
    additionalURLs lifePage = ["/life/2/"] ∧
    (∀ k, brokenPagesNet 1 "/life/2/" k = none) ∧
    gatherQuotes (brokenPagesNet 1 "/life/2/") fuel = none ∧
    gatherQuotesFromCategory (newCategory "Life" "/life/") brokenPagesNet [0] fuel = none := by
  have hurls : additionalURLs lifePage = ["/life/2/"] := by decide
  have hdead : ∀ k, brokenPagesNet 1 "/life/2/" k = none := fun _ => rfl
  have hpage : gatherQuotes (brokenPagesNet 1 "/life/2/") fuel = none :=
    gatherQuotes_all_fail _ hdead fuel
  refine ⟨hurls, hdead, hpage, ?_⟩
  have hf : fetch (brokenPagesNet 0 (newCategory "Life" "/life/").Source) fuel =
      .ok ⟨some lifePage⟩ 1 0 := rfl
  have hnav : FindAll lifePage (ByClass "wp-pagenavi") ≠ [] := by
    intro h
    have : (FindAll lifePage (ByClass "wp-pagenavi")).length = 0 := by rw [h]; rfl
    revert this
    decide
  unfold gatherQuotesFromCategory
  rw [body_paginated _ brokenPagesNet [0] fuel 1 0 ⟨some lifePage⟩ lifePage hf rfl hnav, hurls]
  have hchan : channel brokenPagesNet ["/life/2/"] [0] fuel = [] := by
    simp [channel, hpage]
  rw [hchan]
  rfl

/-- C8, at a category whose GETs all fail: the crawler never returns, whatever
the bound, so `wg.Done` is never called; and when the seventh GET answers after
six failures the category is filled from it instead of being left empty. -/
theorem category_never_gives_up (order : List Nat) (fuel : Nat) :
    gatherQuotesFromCategory (newCategory "Love" "/love/") deadNet order fuel = none ∧
    (List.range 6).all (fun k => (lateNet 0 "/love/" k).isNone) = true ∧
    gatherQuotesFromCategory (newCategory "Love" "/love/") lateNet [] 6 = some loveReturn := by
  refine ⟨?_, by decide, by decide⟩
  unfold gatherQuotesFromCategory
  rw [body_running _ deadNet order fuel (fuel + 1) fuel (fetch_all_fail _ (fun _ => rfl) fuel)]

/-- What the crawler does hold to when page 1 cannot be parsed: the category is
returned as it came, no page goroutine is started, `wg.Done` is called once. -/
theorem parse_error_leaves_category (cat : category) (net : Net) (order : List Nat)
    (fuel g s : Nat) (resp : Response)
    (hf : fetch (net 0 cat.Source) fuel = .ok resp g s) (hp : resp.parse = none) :
    gatherQuotesFromCategory cat net order fuel = some ⟨cat, [], 1⟩ := by
  unfold gatherQuotesFromCategory
  rw [body_parse_error cat net order fuel g s resp hf hp]

/-- The return of the crawler on a paginated page 1, when the channel carries at
most one value per page link. -/
theorem paginated_return (cat : category) (net : Net) (order : List Nat) (fuel g s : Nat)
    (resp : Response) (root : Node) (hf : fetch (net 0 cat.Source) fuel = .ok resp g s)
    (hp : resp.parse = some root) (hnav : FindAll root (ByClass "wp-pagenavi") ≠ [])
    (hnd : order.Nodup) :
    gatherQuotesFromCategory cat net order fuel =
      if (channel net (additionalURLs root) order fuel).length = (additionalURLs root).length
      then some ⟨{ cat with
          Quotes := extractQuotes root ++
            delivered (channel net (additionalURLs root) order fuel),
          QuotesNumber := ((extractQuotes root ++
            delivered (channel net (additionalURLs root) order fuel)).length : Int),
          Pages := ((additionalURLs root).length : Int) + 1 }, additionalURLs root, 1⟩
      else none := by
  unfold gatherQuotesFromCategory
  rw [body_paginated cat net order fuel g s resp root hf hp hnav,
    receive_all _ _ _ (channel_length_le net (additionalURLs root) order fuel hnd)]
  by_cases hfull : (channel net (additionalURLs root) order fuel).length =
      (additionalURLs root).length
  · simp only [if_pos hfull, Option.map_some']
  · simp only [if_neg hfull, Option.map_none']

/-- C10: two runs of the crawler on the same category and network that differ
only in the order in which the page goroutines deliver (each at most once):
when one returns so does the other, the two `Quotes` are permutations of each
other and both start with the quotes of page 1, and `QuotesNumber` and `Pages`
are the same. -/
theorem arrival_order_only_permutes (cat : category) (net : Net) (o1 o2 : List Nat)
    (fuel : Nat) (r1 : Return) (hperm : o1.Perm o2) (hnd : o1.Nodup)
    (h1 : gatherQuotesFromCategory cat net o1 fuel = some r1) :
    ∃ r2, gatherQuotesFromCategory cat net o2 fuel = some r2 ∧
      r1.cat.Quotes.Perm r2.cat.Quotes ∧
      r1.cat.QuotesNumber = r2.cat.QuotesNumber ∧
      r1.cat.Pages = r2.cat.Pages ∧
      (∀ resp g s root, fetch (net 0 cat.Source) fuel = .ok resp g s →
        resp.parse = some root →
        extractQuotes root <+: r1.cat.Quotes ∧ extractQuotes root <+: r2.cat.Quotes) := by
  cases hf : fetch (net 0 cat.Source) fuel with
  | running g s =>
    unfold gatherQuotesFromCategory at h1
    simp [body_running cat net o1 fuel g s hf] at h1
  | failed g s => exact absurd hf (fetch_never_failed _ _ _ _)
  | ok resp g s =>
    cases hp : resp.parse with
    | none =>
      rw [parse_error_leaves_category cat net o1 fuel g s resp hf hp] at h1
      simp only [Option.some.injEq] at h1
      refine ⟨⟨cat, [], 1⟩, parse_error_leaves_category cat net o2 fuel g s resp hf hp, ?_⟩
      rw [← h1]
      refine ⟨List.Perm.refl _, rfl, rfl, ?_⟩
      intro resp2 g2 s2 root hf2 hp2
      simp only [FetchResult.ok.injEq] at hf2
      rw [← hf2.1, hp] at hp2
      exact absurd hp2 (by simp)
    | some root =>
      by_cases hnav : FindAll root (ByClass "wp-pagenavi") = []
      · have e1 : gatherQuotesFromCategory cat net o1 fuel =
            gatherQuotesFromCategory cat net o2 fuel := by
          unfold gatherQuotesFromCategory
          rw [body_single_page cat net o1 fuel g s resp root hf hp hnav,
            body_single_page cat net o2 fuel g s resp root hf hp hnav]
        refine ⟨r1, e1 ▸ h1, List.Perm.refl _, rfl, rfl, ?_⟩
        intro resp2 g2 s2 root2 hf2 hp2
        simp only [FetchResult.ok.injEq] at hf2
        rw [← hf2.1, hp] at hp2
        simp only [Option.some.injEq] at hp2
        subst hp2
        unfold gatherQuotesFromCategory at h1
        rw [body_single_page cat net o1 fuel g s resp root hf hp hnav] at h1
        simp only [Option.some.injEq] at h1
        rw [← h1]
        exact ⟨List.prefix_refl _, List.prefix_refl _⟩
      · have hc : (channel net (additionalURLs root) o1 fuel).Perm
            (channel net (additionalURLs root) o2 fuel) :=
          List.Perm.filterMap _ hperm
        have hlen := hc.length_eq
        rw [paginated_return cat net o1 fuel g s resp root hf hp hnav hnd] at h1
        by_cases hfull : (channel net (additionalURLs root) o1 fuel).length =
            (additionalURLs root).length
        · rw [if_pos hfull] at h1
          simp only [Option.some.injEq] at h1
          have h2 := paginated_return cat net o2 fuel g s resp root hf hp hnav
            (hperm.nodup_iff.mp hnd)
          rw [if_pos (hlen ▸ hfull)] at h2
          refine ⟨_, h2, ?_⟩
          rw [← h1]
          refine ⟨List.Perm.append_left _ (delivered_perm hc), ?_, rfl, ?_⟩
          · simp only [List.length_append, (delivered_perm hc).length_eq]
          · intro resp2 g2 s2 root2 hf2 hp2
            simp only [FetchResult.ok.injEq] at hf2
            rw [← hf2.1, hp] at hp2
            simp only [Option.some.injEq] at hp2
            subst hp2
            exact ⟨List.prefix_append _ _, List.prefix_append _ _⟩
        · rw [if_neg hfull] at h1
          exact absurd h1 (by simp)

/-! ## What `scrape.FindAll` finds -/

mutual
theorem occurrencesFrom_blocked (m : Node → Bool) :
    ∀ (n : Node) (anc : List Node), anc.all (fun a => !m a) = false →
      (occurrencesFrom anc n).filter
        (fun o => m o.node && o.ancestors.all (fun a => !m a)) = []
  | .mk t a d as cs, anc, h => by
    have hc := occurrencesChildren_blocked m cs (.mk t a d as cs :: anc)
      (by simp only [List.all_cons, h, Bool.and_false])
    simp only [occurrencesFrom, List.filter_cons, h, Bool.and_false, hc]
    rfl
theorem occurrencesChildren_blocked (m : Node → Bool) :
    ∀ (cs : List Node) (anc : List Node), anc.all (fun a => !m a) = false →
      (occurrencesChildren anc cs).filter
        (fun o => m o.node && o.ancestors.all (fun a => !m a)) = []
  | [], _, _ => rfl
  | c :: cs, anc, h => by
    simp only [occurrencesChildren, List.filter_append, occurrencesFrom_blocked m c anc h,
      occurrencesChildren_blocked m cs anc h, List.append_nil]
end

mutual
theorem FindAllFrom_eq (m : Node → Bool) :
    ∀ (n : Node) (anc : List Node), anc.all (fun a => !m a) = true →
      FindAllFrom m anc.head? n =
        ((occurrencesFrom anc n).filter
          (fun o => m o.node && o.ancestors.all (fun a => !m a))).map Occurrence.ref
  | .mk t a d as cs, anc, h => by
    by_cases hm : m (.mk t a d as cs) = true
    · have hb := occurrencesChildren_blocked m cs (.mk t a d as cs :: anc)
        (by simp only [List.all_cons, hm, Bool.not_true, Bool.false_and])
      simp only [FindAllFrom, hm, if_true, occurrencesFrom, List.filter_cons, h, Bool.and_self,
        hb, List.map_cons, List.map_nil, Occurrence.ref]
    · have hm2 : m (.mk t a d as cs) = false := by simpa using hm
      have hc := FindAllChildren_eq m cs (.mk t a d as cs) anc
        (by simp only [List.all_cons, hm2, Bool.not_false, Bool.true_and, h])
      simp only [FindAllFrom, hm2, occurrencesFrom, List.filter_cons, Bool.false_and, hc]
      rfl
theorem FindAllChildren_eq (m : Node → Bool) :
    ∀ (cs : List Node) (p : Node) (anc : List Node),
      (p :: anc).all (fun a => !m a) = true →
      FindAllChildren m p cs =
        ((occurrencesChildren (p :: anc) cs).filter
          (fun o => m o.node && o.ancestors.all (fun a => !m a))).map Occurrence.ref
  | [], _, _, _ => rfl
  | c :: cs, p, anc, h => by
    have h1 := FindAllFrom_eq m c (p :: anc) h
    have h2 := FindAllChildren_eq m cs p anc h
    simp only [List.head?_cons] at h1
    simp only [FindAllChildren, occurrencesChildren, List.filter_append, List.map_append, h1, h2]
end

/-- The nodes `scrape.FindAll` returns: those that match and lie inside no
other match, in document order, each with its parent. -/
theorem FindAll_eq_outermost (root : Node) (m : Node → Bool) :
    FindAll root m = (outermost m root).map Occurrence.ref := by
  have h := FindAllFrom_eq m root [] rfl
  simpa [FindAll, outermost, documentOrder] using h

/-! ## Quote extraction -/

/-- The text of the last of `cs` whose class attribute is `role`, else `dflt`. -/
theorem lastText_cons (role dflt : String) (c : Node) (cs : List Node) :
    (match ((c :: cs).filter (fun c => scrapeAttr c "class" == role)).getLast? with
      | some c => Text c
      | none => dflt) =
    (match (cs.filter (fun c => scrapeAttr c "class" == role)).getLast? with
      | some c => Text c
      | none => if scrapeAttr c "class" = role then Text c else dflt) := by
  by_cases h : scrapeAttr c "class" = role
  · simp only [List.filter_cons, h, beq_self_eq_true, if_true, List.getLast?_cons]
    cases (cs.filter (fun c => scrapeAttr c "class" == role)).getLast? <;> rfl
  · have hb : (scrapeAttr c "class" == role) = false := by simpa using h
    simp only [List.filter_cons, hb, h, if_false]
    rfl

theorem foldl_setField (cs : List Node) :
    ∀ q : quote, cs.foldl setField q =
      ⟨(match (cs.filter (fun c => scrapeAttr c "class" == "quote")).getLast? with
          | some c => Text c
          | none => q.Quote),
       (match (cs.filter (fun c => scrapeAttr c "class" == "author")).getLast? with
          | some c => Text c
          | none => q.Author),
       (match (cs.filter (fun c => scrapeAttr c "class" == "book")).getLast? with
          | some c => Text c
          | none => q.Book)⟩ := by
  induction cs with
  | nil => intro q; rfl
  | cons c cs ih =>
    intro q
    rw [List.foldl_cons, ih, lastText_cons "quote", lastText_cons "author",
      lastText_cons "book"]
    have e1 : (setField q c).Quote =
        if scrapeAttr c "class" = "quote" then Text c else q.Quote := by
      unfold setField
      split_ifs <;> rfl
    have e2 : (setField q c).Author =
        if scrapeAttr c "class" = "author" then Text c else q.Author := by
      unfold setField
      by_cases h1 : scrapeAttr c "class" = "quote"
      · have : ¬ scrapeAttr c "class" = "author" := by rw [h1]; decide
        simp [h1]
      · split_ifs <;> rfl
    have e3 : (setField q c).Book =
        if scrapeAttr c "class" = "book" then Text c else q.Book := by
      unfold setField
      by_cases h1 : scrapeAttr c "class" = "quote"
      · have : ¬ scrapeAttr c "class" = "book" := by rw [h1]; decide
        simp [h1]
      · by_cases h2 : scrapeAttr c "class" = "author"
        · have : ¬ scrapeAttr c "class" = "book" := by rw [h2]; decide
          simp [h2]
        · split_ifs <;> rfl
    rw [e1, e2, e3]

theorem quoteOf_eq_quoteRecord (n : Node) : quoteOf n = quoteRecord n := by
  unfold quoteOf quoteRecord roleText
  rw [foldl_setField]

/-- C5 as amended: the extraction returns one record per node of class
`quotation` that lies inside no other such node, in document order; each field
is the text of the last direct child whose class attribute is `quote`,
`author`, `book`, and `""` when there is no such child. -/
theorem extractQuotes_eq_outermost (root : Node) :
    extractQuotes root =
      (outermost (ByClass "quotation") root).map (fun o => quoteRecord o.node) := by
  unfold extractQuotes
  rw [FindAll_eq_outermost, List.map_map]
  apply List.map_congr_left
  intro o _
  exact quoteOf_eq_quoteRecord o.node

/-- C5 as stated fails on a quotation block inside another: the document has
two nodes of class `quotation` and the extraction returns one record. -/
theorem extractQuotes_misses_nested :
    extractQuotes nestedQuotationPage ≠ everyQuotation nestedQuotationPage ∧
    (extractQuotes nestedQuotationPage).length = 1 ∧
    (nodesWhere (ByClass "quotation") nestedQuotationPage).length = 2 := by
  decide

/-! ## Page links -/

theorem foldl_pageLinks (cs : List Node) :
    ∀ next : List String,
      cs.foldl (fun next c =>
        if isPageLink c then next ++ [scrapeAttr c "href"] else next) next =
      next ++ (cs.filter isPageLink).map (fun c => scrapeAttr c "href") := by
  induction cs with
  | nil => intro next; simp
  | cons c cs ih =>
    intro next
    rw [List.foldl_cons, ih]
    by_cases h : isPageLink c = true
    · simp [h, List.filter_cons]
    · have hb : isPageLink c = false := by simpa using h
      simp [hb, List.filter_cons]

theorem nextLinks_eq (as : List Ref) :
    nextLinks as = as.flatMap (fun r => pageLinks r.node) := by
  have h : ∀ (as : List Ref) (next : List String),
      as.foldl (fun next n =>
        n.node.children.foldl (fun next c =>
          if isPageLink c then next ++ [scrapeAttr c "href"] else next) next) next =
      next ++ as.flatMap (fun r => pageLinks r.node) := by
    intro as
    induction as with
    | nil => intro next; simp
    | cons r as ih =>
      intro next
      rw [List.foldl_cons, ih, foldl_pageLinks]
      simp [pageLinks, List.flatMap_cons, List.append_assoc]
  simpa [nextLinks] using h as []

theorem outermost_nil_of_nodesWhere (m : Node → Bool) (root : Node)
    (h : (nodesWhere m root).length = 0) : outermost m root = [] := by
  have h0 : nodesWhere m root = [] := List.length_eq_zero.mp h
  unfold nodesWhere at h0
  unfold outermost
  rw [List.filter_eq_nil_iff] at h0 ⊢
  intro o ho
  have := h0 o ho
  simp only [Bool.and_eq_true, not_and]
  intro hm
  exact absurd hm this

/-- C6 as amended: the additional page URLs are the `href` values of the
direct-child links, other than those of class `nextpostslink`, of every node of
class `wp-pagenavi` that lies inside no other such node, the nodes taken in
document order and the links of each in child order; the list is empty when the
document has no node of that class. -/
theorem additionalURLs_eq_outermost (root : Node) :
    additionalURLs root =
      (outermost (ByClass "wp-pagenavi") root).flatMap (fun o => pageLinks o.node) ∧
    ((nodesWhere (ByClass "wp-pagenavi") root).length = 0 → additionalURLs root = []) := by
  have heq : additionalURLs root =
      (outermost (ByClass "wp-pagenavi") root).flatMap (fun o => pageLinks o.node) := by
    unfold additionalURLs
    split
    · rw [nextLinks_eq, FindAll_eq_outermost, List.flatMap_map]
      rfl
    · rename_i h
      have h0 : FindAll root (ByClass "wp-pagenavi") = [] :=
        List.length_eq_zero.mp (by omega)
      rw [FindAll_eq_outermost] at h0
      rw [List.map_eq_nil_iff.mp h0]
      rfl
  refine ⟨heq, fun h => ?_⟩
  rw [heq, outermost_nil_of_nodesWhere _ root h]
  rfl

/-- C6 as amended, on the page `/life/` and on the page `/love/`, which has no
navigation node. -/
theorem additionalURLs_eq_outermost_witness :
    additionalURLs lifePage =
      (outermost (ByClass "wp-pagenavi") lifePage).flatMap (fun o => pageLinks o.node) ∧
    additionalURLs lifePage = ["/life/2/"] ∧
    (nodesWhere (ByClass "wp-pagenavi") lovePage).length = 0 ∧
    additionalURLs lovePage = [] :=
  ⟨(additionalURLs_eq_outermost lifePage).1, by decide, by decide,
   (additionalURLs_eq_outermost lovePage).2 (by decide)⟩

/-- C6 as stated fails on a navigation node inside another: the link of the
inner node is a direct child of a `wp-pagenavi` node and is left out. -/
theorem additionalURLs_misses_nested :
    additionalURLs nestedNavigationPage ≠ linksInDocumentOrder nestedNavigationPage ∧
    additionalURLs nestedNavigationPage = ["/life/2/", "/life/4/"] ∧
    linksInDocumentOrder nestedNavigationPage = ["/life/2/", "/life/3/", "/life/4/"] := by
  decide

/-- C10 on a category with two further pages, delivered in the two orders. -/
theorem arrival_order_only_permutes_witness :
    [0, 1].Perm [1, 0] ∧ [0, 1].Nodup ∧
    gatherQuotesFromCategory (newCategory "Life" "/life/") longNet [0, 1] 0 = some longReturn ∧
    ∃ r2, gatherQuotesFromCategory (newCategory "Life" "/life/") longNet [1, 0] 0 = some r2 ∧
      longReturn.cat.Quotes.Perm r2.cat.Quotes ∧
      longReturn.cat.QuotesNumber = r2.cat.QuotesNumber ∧
      longReturn.cat.Pages = r2.cat.Pages ∧
      (∀ resp g s root,
        fetch (longNet 0 (newCategory "Life" "/life/").Source) 0 = .ok resp g s →
        resp.parse = some root →
        extractQuotes root <+: longReturn.cat.Quotes ∧ extractQuotes root <+: r2.cat.Quotes) :=
  ⟨List.Perm.swap 1 0 [], by decide, by decide,
   arrival_order_only_permutes (newCategory "Life" "/life/") longNet [0, 1] [1, 0] 0 longReturn
     (List.Perm.swap 1 0 []) (by decide) (by decide)⟩

/-! ## `gatherThemes` -/

mutual
theorem occurrencesFrom_ancestors (n : Node) :
    ∀ (anc : List Node), anc ≠ [] → ∀ o ∈ occurrencesFrom anc n, o.ancestors ≠ [] :=
  match n with
  | .mk t a d as cs => by
    intro anc h o ho
    simp only [occurrencesFrom, List.mem_cons] at ho
    rcases ho with ho | ho
    · rw [ho]; exact h
    · exact occurrencesChildren_ancestors cs (.mk t a d as cs :: anc) (by simp) o ho
theorem occurrencesChildren_ancestors (cs : List Node) :
    ∀ (anc : List Node), anc ≠ [] → ∀ o ∈ occurrencesChildren anc cs, o.ancestors ≠ [] :=
  match cs with
  | [] => by
    intro anc _ o ho
    simp [occurrencesChildren] at ho
  | c :: cs => by
    intro anc h o ho
    simp only [occurrencesChildren, List.mem_append] at ho
    rcases ho with ho | ho
    · exact occurrencesFrom_ancestors c anc h o ho
    · exact occurrencesChildren_ancestors cs anc h o ho
end

theorem outermost_ancestors (m : Node → Bool) (root : Node) (hroot : m root = false) :
    ∀ o ∈ outermost m root, o.ancestors ≠ [] := by
  intro o ho
  cases root with
  | mk t a d as cs =>
    simp only [outermost, documentOrder, occurrencesFrom, List.filter_cons, hroot,
      Bool.false_and] at ho
    exact occurrencesChildren_ancestors cs _ (by simp) o (List.mem_filter.mp ho).1

theorem themesOf_refs (os : List Occurrence) (h : ∀ o ∈ os, o.ancestors ≠ []) :
    themesOf (os.map Occurrence.ref) =
      .ok (os.map (fun o => ⟨Text o.node, parentHref o.ancestors, [], 0, 0⟩)) := by
  induction os with
  | nil => rfl
  | cons o os ih =>
    have ho := h o (List.mem_cons_self _ _)
    have ih2 := ih (fun x hx => h x (List.mem_cons_of_mem _ hx))
    cases hanc : o.ancestors with
    | nil => exact absurd hanc ho
    | cons p anc =>
      simp only [List.map_cons, themesOf, Occurrence.ref, hanc, List.head?_cons, ih2,
        parentHref]

/-- C9 as amended: on a fetched and parsed index document `gatherThemes` returns
one category per `span` of class `name` that lies inside no other such span, in
document order; its `Name` is the text of the span and its `Source` the `href`
attribute of the span's parent node (`""` when the parent has none); `Quotes`
is empty, `QuotesNumber` and `Pages` are 0. On a GET or parse error it returns
the error and no categories. -/
theorem gatherThemes_eq (resp : Response) :
    gatherThemes none = .error .get ∧
    (resp.parse = none → gatherThemes (some resp) = .error .parse) ∧
    (∀ root, resp.parse = some root → isDocumentRoot root →
      gatherThemes (some resp) =
        .ok ((outermost matcher root).map
          (fun o => ⟨Text o.node, parentHref o.ancestors, [], 0, 0⟩))) := by
  refine ⟨rfl, fun h => by simp [gatherThemes, h], fun root hp hdoc => ?_⟩
  have hroot : matcher root = false := by
    simp [matcher, hdoc.2]
  simp only [gatherThemes, hp]
  rw [FindAll_eq_outermost]
  exact themesOf_refs _ (outermost_ancestors matcher root hroot)

/-- C9 as amended, on the index page of the scenario and on a response that
does not parse. -/
theorem gatherThemes_eq_witness :
    isDocumentRoot indexPage ∧
    gatherThemes (page indexPage) =
      .ok ((outermost matcher indexPage).map
        (fun o => ⟨Text o.node, parentHref o.ancestors, [], 0, 0⟩)) ∧
    gatherThemes (page indexPage) =
      .ok [newCategory "Love" "/love/", newCategory "Life" "/life/"] ∧
    gatherThemes (some ⟨none⟩) = .error .parse :=
  ⟨⟨rfl, rfl⟩, (gatherThemes_eq ⟨some indexPage⟩).2.2 indexPage rfl ⟨rfl, rfl⟩, rfl,
   (gatherThemes_eq ⟨none⟩).2.1 rfl⟩

/-- C9 as stated fails on a name two levels below its link: the category `Life`
gets the `href` of the span's parent, which has none, not that of the link. -/
theorem gatherThemes_reads_parent_only :
    gatherThemes (page deepIndexPage) ≠ .ok (themesByEnclosingLink deepIndexPage) ∧
    gatherThemes (page deepIndexPage) =
      .ok [newCategory "Love" "/love/", newCategory "Life" ""] ∧
    themesByEnclosingLink deepIndexPage =
      [newCategory "Love" "/love/", newCategory "Life" "/life/"] := by
  have h1 : gatherThemes (page deepIndexPage) =
      .ok [newCategory "Love" "/love/", newCategory "Life" ""] := rfl
  have h2 : themesByEnclosingLink deepIndexPage =
      [newCategory "Love" "/love/", newCategory "Life" "/life/"] := by decide
  refine ⟨?_, h1, h2⟩
  rw [h1, h2]
  intro h
  injection h with h
  revert h
  decide

/-! ## When the crawler returns -/

theorem fetch_answers (get : Nat → Option Response) (k : Nat) (hk : (get k).isSome = true)
    (fuel : Nat) (hfuel : k ≤ fuel) : ∃ resp g s, fetch get fuel = .ok resp g s := by
  have hex : ∃ i, (get i).isSome = true := ⟨k, hk⟩
  have hle : Nat.find hex ≤ k := Nat.find_min' hex hk
  have hfail : ∀ i, i < Nat.find hex → get i = none := by
    intro i hi
    have := Nat.find_min hex hi
    simpa using this
  obtain ⟨resp, hresp⟩ := Option.isSome_iff_exists.mp (Nat.find_spec hex)
  exact ⟨resp, _, _, fetch_first_success get (Nat.find hex) resp hfail hresp fuel (by omega)⟩

theorem gatherQuotes_sends (get : Nat → Option Response) (k : Nat)
    (hk : (get k).isSome = true) (fuel : Nat) (hfuel : k ≤ fuel) :
    (gatherQuotes get fuel).isSome = true := by
  obtain ⟨resp, g, s, h⟩ := fetch_answers get k hk fuel hfuel
  unfold gatherQuotes
  rw [h]
  cases hp : resp.parse <;> simp [hp]

theorem length_filterMap_of_isSome {α β : Type} (f : α → Option β) (l : List α)
    (h : ∀ a ∈ l, (f a).isSome = true) : (l.filterMap f).length = l.length := by
  induction l with
  | nil => rfl
  | cons a l ih =>
    obtain ⟨b, hb⟩ := Option.isSome_iff_exists.mp (h a (List.mem_cons_self _ _))
    simp only [List.filterMap_cons, hb, List.length_cons,
      ih (fun x hx => h x (List.mem_cons_of_mem _ hx))]

/-- When every GET sequence has an answer among its first `k + 1` outcomes and
each page goroutine delivers once, the crawler returns for every bound of at
least `k` iterations, having called `wg.Done` once; on a paginated page 1 its
`Quotes` are those of page 1 followed by what the channel delivered, in order
of arrival. -/
theorem crawler_returns (cat : category) (net : Net) (order : List Nat) (fuel k : Nat)
    (hans : ∀ task src, ∃ i, i ≤ k ∧ (net task src i).isSome = true) (hfuel : k ≤ fuel)
    (horder : ∀ resp g s root, fetch (net 0 cat.Source) fuel = .ok resp g s →
      resp.parse = some root → order.Perm (List.range (additionalURLs root).length)) :
    ∃ r, gatherQuotesFromCategory cat net order fuel = some r ∧ r.wgDone = 1 ∧
      (∀ resp g s root, fetch (net 0 cat.Source) fuel = .ok resp g s →
        resp.parse = some root →
        r.cat.Quotes = extractQuotes root ++
          delivered (channel net (additionalURLs root) order fuel)) := by
  obtain ⟨i, hi, hsome⟩ := hans 0 cat.Source
  obtain ⟨resp, g, s, hf⟩ := fetch_answers (net 0 cat.Source) i hsome fuel (by omega)
  cases hp : resp.parse with
  | none =>
    refine ⟨_, parse_error_leaves_category cat net order fuel g s resp hf hp, rfl, ?_⟩
    intro resp2 g2 s2 root hf2 hp2
    rw [hf] at hf2
    simp only [FetchResult.ok.injEq] at hf2
    rw [← hf2.1, hp] at hp2
    exact absurd hp2 (by simp)
  | some root =>
    have hperm := horder resp g s root hf hp
    by_cases hnav : FindAll root (ByClass "wp-pagenavi") = []
    · have hurls := additionalURLs_of_no_navigation root hnav
      have hnil : order = [] := by
        rw [hurls] at hperm
        simpa using hperm
      have hret : gatherQuotesFromCategory cat net order fuel =
          some ⟨{ cat with Quotes := extractQuotes root,
                           QuotesNumber := ((extractQuotes root).length : Int) }, [], 1⟩ := by
        unfold gatherQuotesFromCategory
        rw [body_single_page cat net order fuel g s resp root hf hp hnav]
      refine ⟨_, hret, rfl, ?_⟩
      intro resp2 g2 s2 root2 hf2 hp2
      rw [hf] at hf2
      simp only [FetchResult.ok.injEq] at hf2
      rw [← hf2.1, hp] at hp2
      simp only [Option.some.injEq] at hp2
      subst hp2
      simp [hnil, channel, delivered]
    · have hnd : order.Nodup := hperm.nodup_iff.mpr (List.nodup_range _)
      have hlen : (channel net (additionalURLs root) order fuel).length =
          (additionalURLs root).length := by
        unfold channel
        rw [length_filterMap_of_isSome, hperm.length_eq, List.length_range]
        intro j hj
        have hj2 : j < (additionalURLs root).length := by
          have := hperm.mem_iff.mp hj
          simpa using this
        have hget : (additionalURLs root).get? j = some ((additionalURLs root)[j]) := by
          simp [List.get?_eq_getElem?, List.getElem?_eq_getElem hj2]
        rw [hget]
        obtain ⟨i2, hi2, hsome2⟩ := hans (j + 1) ((additionalURLs root)[j])
        exact gatherQuotes_sends _ i2 hsome2 fuel (by omega)
      have hret := paginated_return cat net order fuel g s resp root hf hp hnav hnd
      rw [if_pos hlen] at hret
      refine ⟨_, hret, rfl, ?_⟩
      intro resp2 g2 s2 root2 hf2 hp2
      rw [hf] at hf2
      simp only [FetchResult.ok.injEq] at hf2
      rw [← hf2.1, hp] at hp2
      simp only [Option.some.injEq] at hp2
      subst hp2
      rfl

end QuoteScrapper
